import Mathlib

/-!
Verification of the option-strategy simulator core: a shallow embedding of
the implied-volatility surface engine (`simulator/chain.py`) and the
discrete-time simulation engine (`simulator/simulator.py`,
`simulator/position.py`, `simulator/status.py`, `simulator/action.py`).

Python floats are modelled as rationals (`ℚ`); the one square root of the
term-structure interpolation is taken in `ℝ` via `Real.sqrt`.  Code that can
raise an exception is modelled as `Option`-valued, `none` standing for the
raised exception.  External numeric library routines (py_vollib's
`black_scholes`, `delta`, `implied_volatility`, scipy's `fsolve`) are taken
as explicit function parameters of the embedded callers.
-/

namespace OptionSim

/-! ## Generic list sorting (models numpy/scipy internal sorting) -/

/-- Insert an element into a list that is kept ordered by the boolean
comparator `le` (plain insertion-sort step). -/
def insertOrd (le : α → α → Bool) (a : α) : List α → List α
  | [] => [a]
  | b :: rest => if le a b then a :: b :: rest else b :: insertOrd le a rest

/-- Insertion sort by the boolean comparator `le`; models the ascending sort
performed by `numpy.sort` and by `scipy.interpolate.interp1d` on its knots. -/
def sortOrd (le : α → α → Bool) : List α → List α
  | [] => []
  | a :: rest => insertOrd le a (sortOrd le rest)

theorem insertOrd_length (le : α → α → Bool) (a : α) (l : List α) :
    (insertOrd le a l).length = l.length + 1 := by
  induction l with
  | nil => rfl
  | cons b rest ih =>
    simp only [insertOrd]
    by_cases h : le a b = true
    · simp [h]
    · simp [h, ih]

theorem sortOrd_length (le : α → α → Bool) (l : List α) :
    (sortOrd le l).length = l.length := by
  induction l with
  | nil => rfl
  | cons a rest ih => simp [sortOrd, insertOrd_length, ih]

/-! ## Linear interpolation with extrapolation

Models `OptionChain._linear_interpolation`, i.e.
`interp1d(xs, ys, kind="linear", fill_value="extrapolate")(x)`:
the knots are sorted by abscissa, the value is taken on the segment
containing `x`, and outside the knot range the first/last segment's line is
extended.  `interp1d` raises for fewer than two data points; this is the
`none` result. -/

/-- Piecewise-linear evaluation on a list of knots already sorted by
abscissa.  Fewer than two knots gives `none` (the `interp1d` error). -/
def interpSorted (x : ℚ) : List (ℚ × ℚ) → Option ℚ
  | [] => none
  | [_] => none
  | (x1, y1) :: (x2, y2) :: rest =>
    if x ≤ x2 then some (y1 + (x - x1) * (y2 - y1) / (x2 - x1))
    else
      match rest with
      | [] => some (y1 + (x - x1) * (y2 - y1) / (x2 - x1))
      | _ :: _ => interpSorted x ((x2, y2) :: rest)

/-- Embeds `OptionChain._linear_interpolation(x, xs, ys)`. -/
def linear_interpolation (x : ℚ) (xs ys : List ℚ) : Option ℚ :=
  interpSorted x (sortOrd (fun p q => decide (p.1 ≤ q.1)) (xs.zip ys))

theorem interpSorted_isSome (x : ℚ) (l : List (ℚ × ℚ)) (h : 2 ≤ l.length) :
    (interpSorted x l).isSome = true := by
  induction l with
  | nil => simp at h
  | cons p rest ih =>
    match rest with
    | [] => simp at h
    | q :: rest2 =>
      match p, q with
      | (x1, y1), (x2, y2) =>
        simp only [interpSorted]
        by_cases hx : x ≤ x2
        · simp [hx]
        · simp only [if_neg hx]
          match rest2 with
          | [] => simp
          | r :: rest3 => exact ih (by simp)

theorem linear_interpolation_isSome (x : ℚ) (xs ys : List ℚ)
    (hlen : xs.length = ys.length) (h2 : 2 ≤ xs.length) :
    (linear_interpolation x xs ys).isSome = true := by
  apply interpSorted_isSome
  rw [sortOrd_length, List.length_zip, hlen, Nat.min_self, ← hlen]
  exact h2

/-! ## Skew-line interpolation with clamping

Models `OptionChain._interpolate_skew_line(strike, strikes, ivs, margin)`:
`numpy`'s `ivs.max()` / `ivs.min()` raise on an empty array (the `none`
results of `List.max?` / `List.min?`), then the linearly
interpolated/extrapolated value is clamped as
`max(min(max_iv * margin, iv), min_iv)`. -/

/-- Embeds `OptionChain._interpolate_skew_line`. -/
def interpolate_skew_line (strike : ℚ) (strikes ivs : List ℚ)
    (margin : ℚ) : Option ℚ :=
  match ivs.max?, ivs.min?, linear_interpolation strike strikes ivs with
  | some max_iv, some min_iv, some iv =>
      some (max (min (max_iv * margin) iv) min_iv)
  | _, _, _ => none

/-! ## Bracket-maturity selection

Models the maturity-selection prefix of
`OptionChain._get_strike_iv_interpolator`: from the `exp` column of the
filtered price table, the maturities quoted at least twice are collected
(`value_counts`, kept when the count is `>= 2`) and sorted; then the two
bracket maturities `(exp_lo, exp_hi)` are chosen.  A Python `IndexError`
(negative/positional index out of range) and the fewer-than-two-maturities
fallback are both `none`. -/

/-- Embeds `exp_counts = price_chain["exp"].value_counts();
exp_multiple = exp_counts[exp_counts >= 2].index.values; exp_multiple.sort()`
on the `exp` column `exps`. -/
def exp_multiple (exps : List ℤ) : List ℤ :=
  sortOrd (fun a b => decide (a ≤ b))
    (exps.dedup.filter (fun e => 2 ≤ exps.count e))

/-- Embeds the `exp_lo, exp_hi` selection of
`OptionChain._get_strike_iv_interpolator` from the sorted multi-quote
maturity list `em` (Python indexing errors are `none`; the code reads
`later_exps[1]` in the two-sided branch). -/
def select_bracket_exps (em : List ℤ) (exp : ℤ) : Option (ℤ × ℤ) :=
  if 2 ≤ em.length then
    let earlier_exps := em.filter (fun e => decide (e < exp))
    let later_exps := em.filter (fun e => decide (exp ≤ e))
    if earlier_exps.length = 0 then
      match later_exps[0]?, later_exps[1]? with
      | some a, some b => some (a, b)
      | _, _ => none
    else if later_exps.length = 0 then
      match earlier_exps.dropLast.getLast?, earlier_exps.getLast? with
      | some a, some b => some (a, b)
      | _, _ => none
    else
      match earlier_exps.getLast?, later_exps[1]? with
      | some a, some b => some (a, b)
      | _, _ => none
  else none

/-! ## Theorems for the surface engine claims -/

/-- C1: on the filtered price table whose `exp` column is
`[10, 10, 20, 20, 30, 30]` (three maturities, each quoted at two strikes)
and target expiration `15`, the claim requires the true bracket `(10, 20)`;
the code selects `(10, 30)` (it reads `later_exps[1]`).  On the table
`[10, 10, 20, 20]` the claim requires `(10, 20)`; the code raises an
`IndexError` (`later_exps[1]` with a single later maturity), modelled as
`none`. -/
theorem bracket_selection_skips_immediate_upper :
    select_bracket_exps (exp_multiple [10, 10, 20, 20, 30, 30]) 15
        = some (10, 30)
      ∧ select_bracket_exps (exp_multiple [10, 10, 20, 20, 30, 30]) 15
        ≠ some (10, 20)
      ∧ select_bracket_exps (exp_multiple [10, 10, 20, 20]) 15 = none := by
  decide

/-- C4: the clamped skew-line interpolation never falls below the smallest
observed IV and never exceeds `margin` times the largest observed IV, for
every queried strike (including extrapolated ones), whenever the margin is
at least one and the observed IVs are nonnegative. -/
theorem interpolate_skew_line_clamped (strike : ℚ) (strikes ivs : List ℚ)
    (margin y lo hi : ℚ) (hmargin : 1 ≤ margin)
    (hnonneg : ∀ iv ∈ ivs, 0 ≤ iv)
    (hy : interpolate_skew_line strike strikes ivs margin = some y)
    (hlo : ivs.min? = some lo) (hhi : ivs.max? = some hi) :
    lo ≤ y ∧ y ≤ margin * hi := by
  unfold interpolate_skew_line at hy
  rw [hhi, hlo] at hy
  match hint : linear_interpolation strike strikes ivs with
  | none => rw [hint] at hy; exact absurd hy (by simp)
  | some iv =>
    rw [hint] at hy
    simp only [Option.some.injEq] at hy
    have hhimem : hi ∈ ivs := List.max?_mem (fun a b => max_choice a b) hhi
    have hhi0 : 0 ≤ hi := hnonneg hi hhimem
    have hlohi : lo ≤ hi :=
      (List.le_min?_iff (fun a b c => le_min_iff) hlo).mp (le_refl lo) hi hhimem
    constructor
    · rw [← hy]; exact le_max_right _ _
    · rw [← hy]
      apply max_le
      · calc min (hi * margin) iv ≤ hi * margin := min_le_left _ _
          _ = margin * hi := mul_comm _ _
      · calc lo ≤ hi := hlohi
          _ ≤ margin * hi := le_mul_of_one_le_left hhi0 hmargin

/-- Witness for C4 at a strike outside the quoted range (extrapolation):
strikes `[90, 110]`, observed IVs `[1, 3]`, queried strike `120`
(extrapolated value `4`), margin `2`. -/
theorem interpolate_skew_line_clamped_witness :
    (1 : ℚ) ≤ 2
      ∧ interpolate_skew_line 120 [90, 110] [1, 3] 2 = some 4
      ∧ ([(1 : ℚ), 3].min? = some 1)
      ∧ ([(1 : ℚ), 3].max? = some 3)
      ∧ ((1 : ℚ) ≤ 4 ∧ (4 : ℚ) ≤ 2 * 3) :=
  ⟨by norm_num,
    by
      norm_num [interpolate_skew_line, linear_interpolation, interpSorted,
        sortOrd, insertOrd, List.max?_cons', List.min?_cons', max_def, min_def],
    by norm_num [List.min?_cons', min_def],
    by norm_num [List.max?_cons', max_def],
    interpolate_skew_line_clamped 120 [90, 110] [1, 3] 2 4 1 3 (by norm_num)
      (by intro iv hiv; fin_cases hiv <;> norm_num)
      (by
        norm_num [interpolate_skew_line, linear_interpolation, interpSorted,
          sortOrd, insertOrd, List.max?_cons', List.min?_cons', max_def,
          min_def])
      (by norm_num [List.min?_cons', min_def])
      (by norm_num [List.max?_cons', max_def])⟩

/-! ## Skew-line construction from quotes

Models the per-bracket-maturity loops of
`OptionChain._get_strike_iv_interpolator` (lines 92-116): every quote of the
maturity's chain is inverted to an implied volatility with
`imp_vol_bsm(p, spot, K, t/31536000, 0.0, option_type) * iv_ratio`; a quote
whose inversion raises is skipped by the bare `except: pass`. -/

/-- Row of a bracket maturity's price chain, as iterated by the skew-line
build loop: price `p`, strike `K`, expiration seconds `t` (column `exp`) and
the `iv_ratio` factor `r`. -/
structure Quote where
  p : ℚ
  K : ℚ
  t : ℤ
  r : ℚ

/-- Embeds one skew-line build loop of
`OptionChain._get_strike_iv_interpolator`; `invert p spot K tau` stands for
py_vollib's `imp_vol_bsm(p, spot, K, tau, 0.0, option_type)`, with `none`
for a raised exception.  Returns the `(strikes, ivs)` arrays. -/
def skew_line (invert : ℚ → ℚ → ℚ → ℚ → Option ℚ) (spot : ℚ) :
    List Quote → List ℚ × List ℚ
  | [] => ([], [])
  | q :: rest =>
    match invert q.p spot q.K ((q.t : ℚ) / 31536000) with
    | some iv =>
        (q.K :: (skew_line invert spot rest).1,
          iv * q.r :: (skew_line invert spot rest).2)
    | none => skew_line invert spot rest

/-- Quotes of a bracket maturity whose price inversion succeeds (those the
skew-line build keeps). -/
def surviving_quotes (invert : ℚ → ℚ → ℚ → ℚ → Option ℚ) (spot : ℚ)
    (quotes : List Quote) : List Quote :=
  quotes.filter (fun q => (invert q.p spot q.K ((q.t : ℚ) / 31536000)).isSome)

theorem skew_line_fst (invert : ℚ → ℚ → ℚ → ℚ → Option ℚ) (spot : ℚ)
    (quotes : List Quote) :
    (skew_line invert spot quotes).1
      = (surviving_quotes invert spot quotes).map Quote.K := by
  induction quotes with
  | nil => rfl
  | cons q rest ih =>
    simp only [skew_line, surviving_quotes, List.filter_cons]
    cases h : invert q.p spot q.K ((q.t : ℚ) / 31536000) with
    | none =>
      simp only [h, Option.isSome_none]
      simpa [surviving_quotes] using ih
    | some iv =>
      simp only [h, Option.isSome_some, if_pos, List.map_cons]
      simpa [surviving_quotes] using congrArg (q.K :: ·) ih

theorem skew_line_snd_length (invert : ℚ → ℚ → ℚ → ℚ → Option ℚ) (spot : ℚ)
    (quotes : List Quote) :
    (skew_line invert spot quotes).2.length
      = (surviving_quotes invert spot quotes).length := by
  induction quotes with
  | nil => rfl
  | cons q rest ih =>
    simp only [skew_line, surviving_quotes, List.filter_cons]
    cases h : invert q.p spot q.K ((q.t : ℚ) / 31536000) with
    | none =>
      simp only [h, Option.isSome_none]
      simpa [surviving_quotes] using ih
    | some iv =>
      simp only [h, Option.isSome_some, if_pos, List.length_cons]
      have ih2 : (skew_line invert spot rest).2.length
          = (List.filter
              (fun q => (invert q.p spot q.K ((q.t : ℚ) / 31536000)).isSome)
              rest).length := by
        simpa [surviving_quotes] using ih
      omega

theorem interpSorted_eq_none (x : ℚ) (l : List (ℚ × ℚ)) (h : l.length < 2) :
    interpSorted x l = none := by
  match l with
  | [] => rfl
  | [p] => rfl
  | p :: q :: rest => simp only [List.length_cons] at h; omega

/-- C3 (amended): a quote whose inversion fails is dropped and only that
quote (the skew line is exactly the surviving quotes, in order), the build
itself never aborts, and a queried strike produces an IV precisely when at
least two quotes of the maturity survive inversion; with fewer than two
survivors (in particular when every quote fails) the query returns no IV. -/
theorem skew_line_drops_only_failed_quotes
    (invert : ℚ → ℚ → ℚ → ℚ → Option ℚ) (spot strike margin : ℚ)
    (quotes : List Quote) :
    (skew_line invert spot quotes).1
        = (surviving_quotes invert spot quotes).map Quote.K
      ∧ (2 ≤ (surviving_quotes invert spot quotes).length →
          (interpolate_skew_line strike (skew_line invert spot quotes).1
            (skew_line invert spot quotes).2 margin).isSome = true)
      ∧ ((surviving_quotes invert spot quotes).length < 2 →
          interpolate_skew_line strike (skew_line invert spot quotes).1
            (skew_line invert spot quotes).2 margin = none) := by
  have hfst := skew_line_fst invert spot quotes
  have hlen2 := skew_line_snd_length invert spot quotes
  have hlen1 : (skew_line invert spot quotes).1.length
      = (surviving_quotes invert spot quotes).length := by
    rw [hfst, List.length_map]
  refine ⟨hfst, ?_, ?_⟩
  · intro h2
    match hivs : (skew_line invert spot quotes).2 with
    | [] =>
      rw [hivs] at hlen2
      simp only [List.length_nil] at hlen2
      omega
    | iv :: ivs =>
      have hmax : ∃ hi, (iv :: ivs).max? = some hi := ⟨_, List.max?_cons'⟩
      have hmin : ∃ lo, (iv :: ivs).min? = some lo := ⟨_, List.min?_cons'⟩
      obtain ⟨hi, hhi⟩ := hmax
      obtain ⟨lo, hlo⟩ := hmin
      have hint : (linear_interpolation strike (skew_line invert spot quotes).1
          (iv :: ivs)).isSome = true := by
        apply linear_interpolation_isSome
        · rw [hlen1, ← hivs, hlen2]
        · rw [hlen1]; exact h2
      obtain ⟨y, hy⟩ := Option.isSome_iff_exists.mp hint
      unfold interpolate_skew_line
      rw [hhi, hlo, hy]
      rfl
  · intro h2
    unfold interpolate_skew_line
    match hivs : (skew_line invert spot quotes).2 with
    | [] => rfl
    | iv :: ivs =>
      have hint : linear_interpolation strike (skew_line invert spot quotes).1
          (iv :: ivs) = none := by
        unfold linear_interpolation
        apply interpSorted_eq_none
        rw [sortOrd_length, List.length_zip]
        have hlen3 : (iv :: ivs).length
            = (surviving_quotes invert spot quotes).length := by
          rw [← hivs]; exact hlen2
        omega
      rw [hint]
      match (iv :: ivs).max?, (iv :: ivs).min? with
      | some _, some _ => rfl
      | some _, none => rfl
      | none, _ => rfl

/-- Witness for C3 (amended) with one failing quote among three: the strike
`95` quote fails inversion and is dropped, the two others survive, and the
query still produces an IV; separately, a maturity whose single surviving
quote count is below two yields no IV. -/
theorem skew_line_drops_only_failed_quotes_witness :
    (skew_line (fun p _ _ _ => if p = 0 then none else some p) 100
          [⟨1 / 10, 90, 604800, 1⟩, ⟨0, 95, 604800, 1⟩,
            ⟨1 / 5, 110, 604800, 1⟩]).1
        = (surviving_quotes (fun p _ _ _ => if p = 0 then none else some p) 100
            [⟨1 / 10, 90, 604800, 1⟩, ⟨0, 95, 604800, 1⟩,
              ⟨1 / 5, 110, 604800, 1⟩]).map Quote.K
      ∧ (2 ≤ (surviving_quotes (fun p _ _ _ => if p = 0 then none else some p)
            100 [⟨1 / 10, 90, 604800, 1⟩, ⟨0, 95, 604800, 1⟩,
              ⟨1 / 5, 110, 604800, 1⟩]).length →
          (interpolate_skew_line 105
            (skew_line (fun p _ _ _ => if p = 0 then none else some p) 100
              [⟨1 / 10, 90, 604800, 1⟩, ⟨0, 95, 604800, 1⟩,
                ⟨1 / 5, 110, 604800, 1⟩]).1
            (skew_line (fun p _ _ _ => if p = 0 then none else some p) 100
              [⟨1 / 10, 90, 604800, 1⟩, ⟨0, 95, 604800, 1⟩,
                ⟨1 / 5, 110, 604800, 1⟩]).2 2).isSome = true)
      ∧ ((surviving_quotes (fun p _ _ _ => if p = 0 then none else some p) 100
            [⟨1 / 10, 90, 604800, 1⟩, ⟨0, 95, 604800, 1⟩,
              ⟨1 / 5, 110, 604800, 1⟩]).length < 2 →
          interpolate_skew_line 105
            (skew_line (fun p _ _ _ => if p = 0 then none else some p) 100
              [⟨1 / 10, 90, 604800, 1⟩, ⟨0, 95, 604800, 1⟩,
                ⟨1 / 5, 110, 604800, 1⟩]).1
            (skew_line (fun p _ _ _ => if p = 0 then none else some p) 100
              [⟨1 / 10, 90, 604800, 1⟩, ⟨0, 95, 604800, 1⟩,
                ⟨1 / 5, 110, 604800, 1⟩]).2 2 = none) :=
  skew_line_drops_only_failed_quotes
    (fun p _ _ _ => if p = 0 then none else some p) 100 105 2
    [⟨1 / 10, 90, 604800, 1⟩, ⟨0, 95, 604800, 1⟩, ⟨1 / 5, 110, 604800, 1⟩]

/-- C3 counterexample: a bracket maturity both of whose quotes fail
inversion yields an empty skew line, and then the query at any strike (here
`105`) produces no IV — the surface query raises instead of producing an
IV. -/
theorem skew_query_none_when_all_inversions_fail :
    skew_line (fun _ _ _ _ => none) 100
        [⟨1, 90, 604800, 1⟩, ⟨1, 110, 604800, 1⟩] = ([], [])
      ∧ interpolate_skew_line 105
          (skew_line (fun _ _ _ _ => none) 100
            [⟨1, 90, 604800, 1⟩, ⟨1, 110, 604800, 1⟩]).1
          (skew_line (fun _ _ _ _ => none) 100
            [⟨1, 90, 604800, 1⟩, ⟨1, 110, 604800, 1⟩]).2 2 = none := by
  exact ⟨rfl, rfl⟩

/-! ## Term-structure interpolation -/

/-- Embeds `OptionChain._interpolate_term_structure(tau, taus, ivs)`:
`variances = taus * ivs**2`, the variance is linearly interpolated at `tau`,
and the result is `sqrt(variance / tau)` (the square root taken in `ℝ`). -/
noncomputable def interpolate_term_structure (tau : ℚ) (taus ivs : List ℚ) :
    Option ℝ :=
  (linear_interpolation tau taus
      (List.zipWith (fun t iv => t * iv ^ 2) taus ivs)).map
    (fun (variance : ℚ) => Real.sqrt ((variance : ℝ) / (tau : ℝ)))

/-- Reference formula taken from the spec's words (C5): the linear-in-tenor
interpolation of the variances `IV² × tenor` at the two bracket points,
evaluated at the target tenor. -/
def spec_variance_interp (t1 t2 iv1 iv2 tau : ℚ) : ℚ :=
  t1 * iv1 ^ 2 + (tau - t1) * (t2 * iv2 ^ 2 - t1 * iv1 ^ 2) / (t2 - t1)

theorem linear_interpolation_two_point (x x1 x2 y1 y2 : ℚ) (h : x1 ≤ x2) :
    linear_interpolation x [x1, x2] [y1, y2]
      = some (y1 + (x - x1) * (y2 - y1) / (x2 - x1)) := by
  by_cases hx : x ≤ x2
  · simp [linear_interpolation, List.zip, sortOrd, insertOrd, h,
      interpSorted, hx]
  · simp [linear_interpolation, List.zip, sortOrd, insertOrd, h,
      interpSorted, hx]

/-- C5: on a pair of bracket tenors `t1 < t2` with skew-line IVs `iv1, iv2`
and a target tenor `tau` between them, the term-structure interpolation
returns `sqrt(v / tau)` with `v` the linear-in-tenor interpolation of the
variances `IV² × tenor` at the two bracket points — variance-time
interpolation, characterized by `r ≥ 0` and `r² × tau = v`. -/
theorem interpolate_term_structure_variance_time (t1 t2 iv1 iv2 tau : ℚ)
    (r : ℝ) (h12 : t1 < t2) (htau : 0 < tau)
    (hvq : 0 ≤ spec_variance_interp t1 t2 iv1 iv2 tau)
    (hr : interpolate_term_structure tau [t1, t2] [iv1, iv2] = some r) :
    r = Real.sqrt ((spec_variance_interp t1 t2 iv1 iv2 tau : ℝ) / (tau : ℝ))
      ∧ 0 ≤ r
      ∧ r ^ 2 * (tau : ℝ) = (spec_variance_interp t1 t2 iv1 iv2 tau : ℝ) := by
  unfold interpolate_term_structure at hr
  rw [show List.zipWith (fun t iv => t * iv ^ 2) [t1, t2] [iv1, iv2]
      = [t1 * iv1 ^ 2, t2 * iv2 ^ 2] from rfl] at hr
  rw [linear_interpolation_two_point tau t1 t2 _ _ h12.le] at hr
  simp only [Option.map_some', Option.some.injEq] at hr
  have hform : t1 * iv1 ^ 2
      + (tau - t1) * (t2 * iv2 ^ 2 - t1 * iv1 ^ 2) / (t2 - t1)
      = spec_variance_interp t1 t2 iv1 iv2 tau := rfl
  rw [hform] at hr
  have hvr : (0 : ℝ) ≤ (spec_variance_interp t1 t2 iv1 iv2 tau : ℝ) / tau :=
    div_nonneg (by exact_mod_cast hvq) (by exact_mod_cast htau.le)
  refine ⟨hr.symm, ?_, ?_⟩
  · rw [← hr]; exact Real.sqrt_nonneg _
  · rw [← hr, Real.sq_sqrt hvr]
    have htau0 : ((tau : ℝ)) ≠ 0 := by
      have : (0 : ℝ) < (tau : ℝ) := by exact_mod_cast htau
      exact ne_of_gt this
    field_simp

/-- Witness for C5 at the spec's own scenario: bracket tenors 7 and 30 with
flat skew IVs 1/2 and 7/10, target tenor 14. -/
theorem interpolate_term_structure_variance_time_witness :
    Real.sqrt ((spec_variance_interp 7 30 (1 / 2) (7 / 10) 14 : ℝ)
          / ((14 : ℚ) : ℝ))
        = Real.sqrt ((spec_variance_interp 7 30 (1 / 2) (7 / 10) 14 : ℝ)
          / ((14 : ℚ) : ℝ))
      ∧ 0 ≤ Real.sqrt ((spec_variance_interp 7 30 (1 / 2) (7 / 10) 14 : ℝ)
          / ((14 : ℚ) : ℝ))
      ∧ Real.sqrt ((spec_variance_interp 7 30 (1 / 2) (7 / 10) 14 : ℝ)
            / ((14 : ℚ) : ℝ)) ^ 2 * ((14 : ℚ) : ℝ)
        = (spec_variance_interp 7 30 (1 / 2) (7 / 10) 14 : ℝ) := by
  have hr : interpolate_term_structure 14 [7, 30] [1 / 2, 7 / 10]
      = some (Real.sqrt ((spec_variance_interp 7 30 (1 / 2) (7 / 10) 14 : ℝ)
          / ((14 : ℚ) : ℝ))) := by
    unfold interpolate_term_structure
    rw [show List.zipWith (fun t iv => t * iv ^ 2) [(7 : ℚ), 30]
        [1 / 2, 7 / 10] = [7 * (1 / 2) ^ 2, 30 * (7 / 10) ^ 2] from rfl]
    rw [linear_interpolation_two_point 14 7 30 (7 * (1 / 2) ^ 2)
      (30 * (7 / 10) ^ 2) (by norm_num)]
    rfl
  exact interpolate_term_structure_variance_time 7 30 (1 / 2) (7 / 10) 14 _
    (by norm_num) (by norm_num) (by norm_num [spec_variance_interp]) hr

/-! ## Delta-targeted and price-targeted strike search

Models `OptionChain.get_price_by_delta` and `OptionChain.get_strike_by_price`.
The external numeric routines are parameters: `bs` stands for py_vollib's
`black_scholes(flag, S, K, t, r, sigma)`, `dbsm` for its analytical
`delta`, and `fsolve f x0` for scipy's root finder, returning the final
estimate together with its convergence flag (scipy reports
non-convergence only through a warning, and `chain.py` installs
`warnings.filterwarnings("ignore")` at module level, so the caller observes
only the estimate).  `iv_interp` is the strike-to-IV interpolator returned by
`_get_strike_iv_interpolator`.  A raised exception would be `none`. -/

/-- Python `int()` truncation toward zero of a rational. -/
def pyInt (x : ℚ) : ℤ := x.num / (x.den : ℤ)

/-- Embeds the tenor computation of the strike searches:
`exp = int(days_to_maturity * 24 * 60 * 60)` and
`tau = exp / 60 / 60 / 24 / 365.25`. -/
def tau_of_days (days_to_maturity : ℚ) : ℚ :=
  (pyInt (days_to_maturity * 86400) : ℚ) / 31557600

/-- Embeds `OptionChain.get_price_by_delta`: solves
`delta_interp(k) - delta = 0` from initial guess `spot`, takes the solver's
estimate as the strike, and prices at its interpolated IV. -/
def get_price_by_delta (bs dbsm : Bool → ℚ → ℚ → ℚ → ℚ → ℚ → ℚ)
    (fsolve : (ℚ → ℚ) → ℚ → ℚ × Bool) (spot rf : ℚ) (iv_interp : ℚ → ℚ)
    (delta days_to_maturity : ℚ) (is_call : Bool) : Option (ℚ × ℚ × ℚ) :=
  let tau := tau_of_days days_to_maturity
  let delta_interp := fun k => dbsm is_call spot k tau rf (iv_interp k)
  let strike := (fsolve (fun k => delta_interp k - delta) spot).1
  let iv := iv_interp strike
  some (bs is_call spot strike tau rf iv, strike, iv)

/-- Embeds `OptionChain.get_strike_by_price`: solves
`price_interp(k) - price = 0` from the at-the-money price as initial guess,
and returns the target price together with the solver's estimate as the
strike. -/
def get_strike_by_price (bs : Bool → ℚ → ℚ → ℚ → ℚ → ℚ → ℚ)
    (fsolve : (ℚ → ℚ) → ℚ → ℚ × Bool) (spot rf : ℚ) (iv_interp : ℚ → ℚ)
    (price days_to_maturity : ℚ) (is_call : Bool) : Option (ℚ × ℚ × ℚ) :=
  let tau := tau_of_days days_to_maturity
  let price_interp := fun k => bs is_call spot k tau rf (iv_interp k)
  let price_guess := price_interp spot
  let strike := (fsolve (fun k => price_interp k - price) price_guess).1
  let iv := iv_interp strike
  some (price, strike, iv)

/-- C2 (amended): neither strike search surfaces root-finder
non-convergence; whatever convergence flag the solver reports, both methods
return a `some` result whose strike is the solver's last estimate. -/
theorem strike_search_ignores_convergence
    (bs dbsm : Bool → ℚ → ℚ → ℚ → ℚ → ℚ → ℚ) (est : ℚ) (conv : Bool)
    (spot rf : ℚ) (iv_interp : ℚ → ℚ) (delta price days : ℚ)
    (flag : Bool) :
    get_price_by_delta bs dbsm (fun _ _ => (est, conv)) spot rf iv_interp
        delta days flag
      = some (bs flag spot est (tau_of_days days) rf (iv_interp est), est,
          iv_interp est)
      ∧ get_strike_by_price bs (fun _ _ => (est, conv)) spot rf iv_interp
          price days flag
        = some (price, est, iv_interp est) :=
  ⟨rfl, rfl⟩

/-- C2 counterexample: with a solver whose convergence flag is `false`
(non-converged) and whose last estimate is `42`, `get_price_by_delta` still
returns a result rather than a computation failure, and the returned strike
is the non-converged estimate `42`; `get_strike_by_price` behaves the same
way. -/
theorem strike_search_silent_on_nonconvergence :
    (get_price_by_delta (fun _ S K _ _ _ => S - K) (fun _ _ _ _ _ _ => 0)
        (fun _ _ => (42, false)) 100 0 (fun _ => 1) (1 / 4) 7 true).isSome
        = true
      ∧ (get_price_by_delta (fun _ S K _ _ _ => S - K) (fun _ _ _ _ _ _ => 0)
          (fun _ _ => (42, false)) 100 0 (fun _ => 1) (1 / 4) 7 true).map
            (fun t => t.2.1)
        = some 42
      ∧ (get_strike_by_price (fun _ S K _ _ _ => S - K)
          (fun _ _ => (42, false)) 100 0 (fun _ => 1) (1 / 2) 7 true).isSome
        = true
      ∧ (get_strike_by_price (fun _ S K _ _ _ => S - K)
          (fun _ _ => (42, false)) 100 0 (fun _ => 1) (1 / 2) 7 true).map
            (fun t => t.2.1)
        = some 42 :=
  ⟨rfl, rfl, rfl, rfl⟩

/-! ## Positions (`simulator/position.py`)

Timestamps are modelled as integers (`ℤ`), money and sizes as rationals. -/

/-- Option side, the `type` field's `Literal["call", "put"]`. -/
inductive OptionKind
  | call
  | put
  deriving DecidableEq

/-- Embeds the `OptionPosition` dataclass (the valuation/delta methods,
which call the external pricing library, are not modelled; no claim
concerns them). -/
structure OptionPosition where
  type : OptionKind
  strike : ℚ
  maturity : ℤ
  size : ℚ
  collateral_primary : ℚ
  collateral_secondary : ℚ
  iv_start : ℚ
  price_start : Option ℚ := none
  deriving DecidableEq

namespace OptionPosition

/-- Embeds `is_long`: `size > 0`. -/
def is_long (p : OptionPosition) : Prop := 0 < p.size

/-- Embeds `is_short`: `size < 0`. -/
def is_short (p : OptionPosition) : Prop := p.size < 0

/-- Embeds `is_call`. -/
def is_call (p : OptionPosition) : Prop := p.type = OptionKind.call

instance (p : OptionPosition) : Decidable p.is_long :=
  inferInstanceAs (Decidable (0 < p.size))

instance (p : OptionPosition) : Decidable p.is_short :=
  inferInstanceAs (Decidable (p.size < 0))

/-- Embeds `moneyness`: `spot - strike` for calls, `strike - spot` for
puts. -/
def moneyness (p : OptionPosition) (spot : ℚ) : ℚ :=
  if p.type = OptionKind.call then spot - p.strike else p.strike - spot

/-- Embeds `delivery`: `max(0, moneyness) * size`. -/
def delivery (p : OptionPosition) (spot : ℚ) : ℚ :=
  max 0 (p.moneyness spot) * p.size

/-- Embeds `collateral_value`:
`collateral_primary + collateral_secondary * spot`. -/
def collateral_value (p : OptionPosition) (spot : ℚ) : ℚ :=
  p.collateral_primary + p.collateral_secondary * spot

/-- Embeds `is_liquidated`:
`(collateral_value(spot) < -delivery(spot)) and is_short()`. -/
def is_liquidated (p : OptionPosition) (spot : ℚ) : Prop :=
  p.collateral_value spot < -(p.delivery spot) ∧ p.is_short

instance (p : OptionPosition) (spot : ℚ) : Decidable (p.is_liquidated spot) :=
  inferInstanceAs (Decidable (_ ∧ _))

/-- Embeds `is_expired`: `time >= maturity`. -/
def is_expired (p : OptionPosition) (time : ℤ) : Prop := p.maturity ≤ time

instance (p : OptionPosition) (time : ℤ) : Decidable (p.is_expired time) :=
  inferInstanceAs (Decidable (p.maturity ≤ time))

end OptionPosition

/-! ## Portfolio status and actions (`simulator/status.py`, `action.py`) -/

/-- Embeds the `SimulationStatus` dataclass. -/
structure SimulationStatus where
  primary : ℚ
  secondary : ℚ
  positions : List OptionPosition

/-- Embeds `SimulationStatus.liquidity`. -/
def SimulationStatus.liquidity (st : SimulationStatus) (spot : ℚ) : ℚ :=
  st.primary + st.secondary * spot

/-- Embeds `SimulationStatus.num_long_positions`. -/
def SimulationStatus.num_long_positions (st : SimulationStatus) : ℕ :=
  st.positions.countP (fun p => decide p.is_long)

/-- Embeds `SimulationStatus.num_short_positions`. -/
def SimulationStatus.num_short_positions (st : SimulationStatus) : ℕ :=
  st.positions.countP (fun p => decide p.is_short)

/-- Embeds `SimulationStatus.collateral_primary`. -/
def SimulationStatus.collateral_primary (st : SimulationStatus) : ℚ :=
  (st.positions.map OptionPosition.collateral_primary).sum

/-- Embeds `SimulationStatus.collateral_secondary`. -/
def SimulationStatus.collateral_secondary (st : SimulationStatus) : ℚ :=
  (st.positions.map OptionPosition.collateral_secondary).sum

/-- Action kind, the `type` field's
`Literal["buy", "sell", "expiration", "liquidation"]`. -/
inductive ActionType
  | buy
  | sell
  | expiration
  | liquidation
  deriving DecidableEq

/-- Embeds the `SimulationAction` dataclass (the human-readable
`description` string is omitted). -/
structure SimulationAction where
  step : ℕ
  timestamp : ℤ
  spot : ℚ
  type : ActionType
  position : Option OptionPosition := none
  liquidity_change : Option ℚ := none
  deriving DecidableEq

/-! ## Simulation engine (`simulator/simulator.py`) -/

/-- Embeds `OptionSimulator._check_liquidations`: the liquidated positions
are snapshotted, then each is removed from the status (`list.remove`
removes the first occurrence by value, i.e. `List.erase`) and logged as a
`liquidation` action with `liquidity_change=0.0`. -/
def check_liquidations (step : ℕ) (time : ℤ) (spot : ℚ)
    (status : SimulationStatus) : SimulationStatus × List SimulationAction :=
  let liquidated :=
    status.positions.filter (fun p => decide (p.is_liquidated spot))
  let mk : OptionPosition → SimulationAction := fun p =>
    { step := step, timestamp := time, spot := spot,
      type := ActionType.liquidation, position := some p,
      liquidity_change := some 0 }
  liquidated.foldl
    (fun st_acts p =>
      ({ st_acts.1 with positions := st_acts.1.positions.erase p },
        st_acts.2 ++ [mk p]))
    (status, [])

/-- Embeds `OptionSimulator._check_expirations`: the expired positions are
snapshotted, then each is removed, `delivery + collateral_value` is
credited to the primary balance, and an `expiration` action logs that
liquidity change. -/
def check_expirations (step : ℕ) (time : ℤ) (spot : ℚ)
    (status : SimulationStatus) : SimulationStatus × List SimulationAction :=
  let expired := status.positions.filter (fun p => decide (p.is_expired time))
  let mk : OptionPosition → SimulationAction := fun p =>
    { step := step, timestamp := time, spot := spot,
      type := ActionType.expiration, position := some p,
      liquidity_change := some (p.delivery spot + p.collateral_value spot) }
  expired.foldl
    (fun st_acts p =>
      ({ st_acts.1 with
          primary := st_acts.1.primary
            + (p.delivery spot + p.collateral_value spot),
          positions := st_acts.1.positions.erase p },
        st_acts.2 ++ [mk p]))
    (status, [])

/-- Row of the output timeline (`OptionSimulator._get_timeline_row`); the
columns that call the external pricing library (position values/deltas) are
omitted, no claim concerns them. -/
structure TimelineRow where
  timestamp : ℤ
  spot : ℚ
  primary : ℚ
  secondary : ℚ
  liquidity : ℚ
  num_long_positions : ℕ
  num_short_positions : ℕ
  collateral_primary : ℚ
  collateral_secondary : ℚ

/-- Embeds the modelled columns of `OptionSimulator._get_timeline_row`. -/
def get_timeline_row (time : ℤ) (spot : ℚ) (status : SimulationStatus) :
    TimelineRow :=
  { timestamp := time, spot := spot, primary := status.primary,
    secondary := status.secondary, liquidity := status.liquidity spot,
    num_long_positions := status.num_long_positions,
    num_short_positions := status.num_short_positions,
    collateral_primary := status.collateral_primary,
    collateral_secondary := status.collateral_secondary }

/-- Strategy calling contract (`BaseOptionStrategy.execute`): step, time,
spot, status, chain (possibly carried-forward `None`) and the action log so
far; returns the updated status and the new actions.  The timing-signal
strategy selection of `simulate` is absorbed into this parameter. -/
def StrategyExec (C : Type) : Type :=
  ℕ → ℤ → ℚ → SimulationStatus → Option C → List SimulationAction →
    SimulationStatus × List SimulationAction

/-- Embeds the fill-forward iteration of `OptionSimulator._iterate_timeline`
(the spot/chain part; the timing signal is handled by the strategy
parameter): `data i` is the quote snapshot at `start + i*interval` — `none`
when that timestamp has no rows, otherwise the mean spot together with the
chain object `C`.  The loop state starts at `last_spot = 1.0`,
`last_chain = None`. -/
def iterate_timeline_aux {C : Type} (data : ℕ → Option (ℚ × C)) :
    ℕ → ℕ → ℚ → Option C → List (ℕ × ℚ × Option C)
  | 0, _, _, _ => []
  | steps + 1, i, last_spot, last_chain =>
    match data i with
    | some (s, c) =>
        (i, s, some c) :: iterate_timeline_aux data steps (i + 1) s (some c)
    | none =>
        (i, last_spot, last_chain)
          :: iterate_timeline_aux data steps (i + 1) last_spot last_chain

/-- Embeds `OptionSimulator._iterate_timeline` over `num_steps` steps. -/
def iterate_timeline {C : Type} (data : ℕ → Option (ℚ × C))
    (num_steps : ℕ) : List (ℕ × ℚ × Option C) :=
  iterate_timeline_aux data num_steps 0 1 none

/-- The spot/chain pair the fill-forward yields at step `i`: the step's own
data when present, else the previous step's pair (spot `1.0`, chain `None`
before any data). -/
def fill_forward_state {C : Type} (data : ℕ → Option (ℚ × C)) :
    ℕ → ℚ × Option C
  | 0 =>
    match data 0 with
    | some (s, c) => (s, some c)
    | none => (1, none)
  | i + 1 =>
    match data (i + 1) with
    | some (s, c) => (s, some c)
    | none => fill_forward_state data i

/-- Embeds one iteration of the `simulate` loop body: liquidation check,
expiration check, strategy execution; returns the post-step status and the
step's actions in the order they are appended to the action log
(`liq_actions + exp_actions + strategy_actions`). -/
def simulate_step {C : Type} (strategy : StrategyExec C) (step : ℕ)
    (time : ℤ) (spot : ℚ) (chain : Option C) (status : SimulationStatus)
    (action_log : List SimulationAction) :
    SimulationStatus × List SimulationAction :=
  let liq := check_liquidations step time spot status
  let exp := check_expirations step time spot liq.1
  let strat := strategy step time spot exp.1 chain action_log
  (strat.1, liq.2 ++ exp.2 ++ strat.2)

/-- Embeds the `simulate` loop over the iterated timeline: each step
appends one timeline row (computed from the post-step status) and the
step's actions. -/
def simulate_loop {C : Type} (strategy : StrategyExec C)
    (start interval : ℤ) :
    List (ℕ × ℚ × Option C) → SimulationStatus → List TimelineRow →
      List SimulationAction → List TimelineRow × List SimulationAction
  | [], _, timeline, action_log => (timeline, action_log)
  | (i, spot, chain) :: rest, status, timeline, action_log =>
    let time := start + (i : ℤ) * interval
    let res := simulate_step strategy i time spot chain status action_log
    simulate_loop strategy start interval rest res.1
      (timeline ++ [get_timeline_row time spot res.1])
      (action_log ++ res.2)

/-- Embeds `OptionSimulator.simulate`: initial status
`(starting_capital, 0.0, [])`, then the loop over the fill-forward
timeline. -/
def simulate {C : Type} (strategy : StrategyExec C)
    (data : ℕ → Option (ℚ × C)) (num_steps : ℕ) (start interval : ℤ)
    (starting_capital : ℚ) : List TimelineRow × List SimulationAction :=
  simulate_loop strategy start interval (iterate_timeline data num_steps)
    { primary := starting_capital, secondary := 0, positions := [] } [] []

/-! ## Characterization of the liquidation/expiration scans -/

theorem foldl_erase_of_ne {α : Type} [DecidableEq α] (x : α) (xs ps : List α)
    (h : ∀ p ∈ ps, p ≠ x) :
    ps.foldl (fun acc p => acc.erase p) (x :: xs)
      = x :: ps.foldl (fun acc p => acc.erase p) xs := by
  induction ps generalizing xs with
  | nil => rfl
  | cons p ps ih =>
    simp only [List.foldl_cons]
    rw [List.erase_cons_tail (by simp [(h p (List.mem_cons_self p ps)).symm])]
    exact ih _ (fun q hq => h q (List.mem_cons_of_mem p hq))

theorem foldl_erase_filter {α : Type} [DecidableEq α] (pred : α → Bool)
    (l : List α) :
    (l.filter pred).foldl (fun acc p => acc.erase p) l
      = l.filter (fun p => !pred p) := by
  induction l with
  | nil => rfl
  | cons x xs ih =>
    by_cases hx : pred x = true
    · rw [List.filter_cons_of_pos hx, List.foldl_cons, List.erase_cons_head,
        ih, List.filter_cons_of_neg (by simp [hx])]
    · have hx2 : pred x = false := Bool.eq_false_iff.mpr hx
      rw [List.filter_cons_of_neg (by simp [hx2]),
        foldl_erase_of_ne x xs (xs.filter pred) ?hne, ih,
        List.filter_cons_of_pos (by simp [hx2])]
      intro p hp hpx
      rw [List.mem_filter] at hp
      rw [hpx] at hp
      exact hx hp.2

theorem foldl_remove_log (mk : OptionPosition → SimulationAction)
    (ps : List OptionPosition) (st : SimulationStatus)
    (acts : List SimulationAction) :
    ps.foldl
        (fun st_acts p =>
          ({ st_acts.1 with positions := st_acts.1.positions.erase p },
            st_acts.2 ++ [mk p]))
        (st, acts)
      = ({ st with
            positions := ps.foldl (fun l p => l.erase p) st.positions },
          acts ++ ps.map mk) := by
  induction ps generalizing st acts with
  | nil => simp
  | cons p ps ih =>
    simp only [List.foldl_cons, List.map_cons]
    rw [ih]
    simp

theorem foldl_credit_log (f : OptionPosition → ℚ)
    (mk : OptionPosition → SimulationAction) (ps : List OptionPosition)
    (st : SimulationStatus) (acts : List SimulationAction) :
    ps.foldl
        (fun st_acts p =>
          ({ st_acts.1 with
              primary := st_acts.1.primary + f p,
              positions := st_acts.1.positions.erase p },
            st_acts.2 ++ [mk p]))
        (st, acts)
      = ({ st with
            primary := st.primary + (ps.map f).sum,
            positions := ps.foldl (fun l p => l.erase p) st.positions },
          acts ++ ps.map mk) := by
  induction ps generalizing st acts with
  | nil => simp
  | cons p ps ih =>
    simp only [List.foldl_cons, List.map_cons, List.sum_cons]
    rw [ih]
    simp [add_assoc]

theorem check_liquidations_eq (step : ℕ) (time : ℤ) (spot : ℚ)
    (status : SimulationStatus) :
    check_liquidations step time spot status
      = ({ status with
            positions := status.positions.filter
              (fun p => !decide (p.is_liquidated spot)) },
          (status.positions.filter
              (fun p => decide (p.is_liquidated spot))).map
            (fun p =>
              { step := step, timestamp := time, spot := spot,
                type := ActionType.liquidation, position := some p,
                liquidity_change := some 0 })) := by
  unfold check_liquidations
  rw [foldl_remove_log, foldl_erase_filter, List.nil_append]

theorem check_expirations_eq (step : ℕ) (time : ℤ) (spot : ℚ)
    (status : SimulationStatus) :
    check_expirations step time spot status
      = ({ status with
            primary := status.primary
              + ((status.positions.filter
                    (fun p => decide (p.is_expired time))).map
                  (fun p => p.delivery spot + p.collateral_value spot)).sum,
            positions := status.positions.filter
              (fun p => !decide (p.is_expired time)) },
          (status.positions.filter
              (fun p => decide (p.is_expired time))).map
            (fun p =>
              { step := step, timestamp := time, spot := spot,
                type := ActionType.expiration, position := some p,
                liquidity_change := some (p.delivery spot
                  + p.collateral_value spot) })) := by
  unfold check_expirations
  rw [foldl_credit_log (fun p => p.delivery spot + p.collateral_value spot),
    foldl_erase_filter, List.nil_append]

/-- C6: every position removed by the expiration check is credited exactly
`delivery(spot) + collateral_value(spot)` to the primary balance (the total
credit is the sum over the removed positions), and the logged `expiration`
action of each removed position carries that same amount as its
`liquidity_change`. -/
theorem check_expirations_settlement (step : ℕ) (time : ℤ) (spot : ℚ)
    (status : SimulationStatus) :
    (check_expirations step time spot status).1.primary
        = status.primary
          + ((status.positions.filter
                (fun p => decide (p.is_expired time))).map
              (fun p => p.delivery spot + p.collateral_value spot)).sum
      ∧ (check_expirations step time spot status).2.map
            SimulationAction.liquidity_change
        = (status.positions.filter (fun p => decide (p.is_expired time))).map
            (fun p => some (p.delivery spot + p.collateral_value spot))
      ∧ (check_expirations step time spot status).2.map
            SimulationAction.position
        = (status.positions.filter (fun p => decide (p.is_expired time))).map
            some
      ∧ (check_expirations step time spot status).1.positions
        = status.positions.filter (fun p => !decide (p.is_expired time))
      ∧ ∀ a ∈ (check_expirations step time spot status).2,
          a.type = ActionType.expiration := by
  rw [check_expirations_eq]
  refine ⟨rfl, ?_, ?_, rfl, ?_⟩
  · rw [List.map_map]; rfl
  · rw [List.map_map]; rfl
  · intro a ha
    simp only [List.mem_map] at ha
    obtain ⟨p, hp, rfl⟩ := ha
    rfl

/-- C8: the liquidation check removes exactly the positions that are short
with collateral value below the negative of their delivery (long positions
are never removed), logs each removal as a `liquidation` action with
`liquidity_change = 0.0`, and leaves the primary and secondary balances
unchanged. -/
theorem check_liquidations_removes_shorts_only (step : ℕ) (time : ℤ)
    (spot : ℚ) (status : SimulationStatus) :
    (check_liquidations step time spot status).1.primary = status.primary
      ∧ (check_liquidations step time spot status).1.secondary
        = status.secondary
      ∧ (∀ a ∈ (check_liquidations step time spot status).2,
          a.type = ActionType.liquidation ∧ a.liquidity_change = some 0)
      ∧ (check_liquidations step time spot status).2.map
            SimulationAction.position
        = (status.positions.filter
            (fun p => decide (p.is_liquidated spot))).map some
      ∧ (∀ p ∈ status.positions,
          (p ∉ (check_liquidations step time spot status).1.positions ↔
            p.is_short ∧ p.collateral_value spot < -(p.delivery spot)))
      ∧ ∀ p ∈ status.positions, p.is_long →
          p ∈ (check_liquidations step time spot status).1.positions := by
  rw [check_liquidations_eq]
  refine ⟨rfl, rfl, ?_, ?_, ?_, ?_⟩
  · intro a ha
    simp only [List.mem_map] at ha
    obtain ⟨p, hp, rfl⟩ := ha
    exact ⟨rfl, rfl⟩
  · rw [List.map_map]; rfl
  · intro p hp
    simp only [List.mem_filter, hp, true_and, Bool.not_eq_true',
      decide_eq_false_iff_not]
    unfold OptionPosition.is_liquidated
    constructor
    · intro h
      rcases not_not.mp h with ⟨h1, h2⟩
      exact ⟨h2, h1⟩
    · intro h hn
      exact hn ⟨h.2, h.1⟩
  · intro p hp hlong
    simp only [List.mem_filter, hp, true_and, Bool.not_eq_true',
      decide_eq_false_iff_not]
    intro hliq
    have h1 : p.size < 0 := hliq.2
    have h2 : 0 < p.size := hlong
    exact absurd (h1.trans h2) (lt_irrefl p.size)

/-! ## Action ordering within a step -/

/-- Position of an action kind in the per-step log order: liquidations,
then expirations, then strategy actions (buys/sells). -/
def action_group : ActionType → ℕ
  | ActionType.liquidation => 0
  | ActionType.expiration => 1
  | ActionType.buy => 2
  | ActionType.sell => 2

theorem pairwise_le_of_forall_eq (l : List ℕ) (n : ℕ)
    (h : ∀ x ∈ l, x = n) : l.Pairwise (· ≤ ·) := by
  induction l with
  | nil => exact List.Pairwise.nil
  | cons x xs ih =>
    refine List.Pairwise.cons ?_ (ih fun y hy => h y (List.mem_cons_of_mem x hy))
    intro y hy
    rw [h x (List.mem_cons_self x xs), h y (List.mem_cons_of_mem x hy)]

/-- C7: within one simulation step, the actions appended to the action log
come in the fixed order liquidations, then expirations, then
strategy-generated actions; their group indices are nondecreasing along the
appended list, so no action of a later group ever precedes one of an
earlier group (given that the strategy emits only `buy`/`sell` actions, as
every strategy of the repository does). -/
theorem step_actions_ordered {C : Type} (strategy : StrategyExec C)
    (hstrat : ∀ step time spot status chain log,
      ∀ a ∈ (strategy step time spot status chain log).2,
        a.type = ActionType.buy ∨ a.type = ActionType.sell)
    (step : ℕ) (time : ℤ) (spot : ℚ) (chain : Option C)
    (status : SimulationStatus) (action_log : List SimulationAction) :
    ((simulate_step strategy step time spot chain status action_log).2.map
        (fun a => action_group a.type)).Pairwise (· ≤ ·) := by
  have hliq : ∀ a ∈ (check_liquidations step time spot status).2,
      action_group a.type = 0 := by
    rw [check_liquidations_eq]
    intro a ha
    simp only [List.mem_map] at ha
    obtain ⟨p, hp, rfl⟩ := ha
    rfl
  have hexp : ∀ a ∈ (check_expirations step time spot
      (check_liquidations step time spot status).1).2,
      action_group a.type = 1 := by
    rw [check_expirations_eq]
    intro a ha
    simp only [List.mem_map] at ha
    obtain ⟨p, hp, rfl⟩ := ha
    rfl
  have hstr : ∀ a ∈ (strategy step time spot
      (check_expirations step time spot
        (check_liquidations step time spot status).1).1 chain
      action_log).2,
      action_group a.type = 2 := by
    intro a ha
    rcases hstrat step time spot
        (check_expirations step time spot
          (check_liquidations step time spot status).1).1 chain action_log
        a ha with h | h <;> rw [h] <;> rfl
  show (((check_liquidations step time spot status).2
      ++ (check_expirations step time spot
          (check_liquidations step time spot status).1).2
      ++ (strategy step time spot
          (check_expirations step time spot
            (check_liquidations step time spot status).1).1 chain
          action_log).2).map
      (fun a => action_group a.type)).Pairwise (· ≤ ·)
  rw [List.map_append, List.map_append]
  refine List.pairwise_append.mpr
    ⟨List.pairwise_append.mpr ⟨?_, ?_, ?_⟩, ?_, ?_⟩
  · apply pairwise_le_of_forall_eq _ 0
    intro x hx
    simp only [List.mem_map] at hx
    obtain ⟨a, ha, rfl⟩ := hx
    exact hliq a ha
  · apply pairwise_le_of_forall_eq _ 1
    intro x hx
    simp only [List.mem_map] at hx
    obtain ⟨a, ha, rfl⟩ := hx
    exact hexp a ha
  · intro x hx y hy
    simp only [List.mem_map] at hx hy
    obtain ⟨a, ha, rfl⟩ := hx
    obtain ⟨b, hb, rfl⟩ := hy
    rw [hliq a ha, hexp b hb]
    exact Nat.zero_le 1
  · apply pairwise_le_of_forall_eq _ 2
    intro x hx
    simp only [List.mem_map] at hx
    obtain ⟨a, ha, rfl⟩ := hx
    exact hstr a ha
  · intro x hx y hy
    simp only [List.mem_append, List.mem_map] at hx
    simp only [List.mem_map] at hy
    obtain ⟨b, hb, rfl⟩ := hy
    rw [hstr b hb]
    rcases hx with ⟨a, ha, rfl⟩ | ⟨a, ha, rfl⟩
    · rw [hliq a ha]; exact Nat.zero_le 2
    · rw [hexp a ha]; omega

/-- Witness for C7 at a concrete trivial strategy (no actions), spot 100,
empty starting book. -/
theorem step_actions_ordered_witness :
    ((simulate_step (fun _ _ _ st (_ : Option Unit) _ => (st, [])) 0 0 100
        none { primary := 1000, secondary := 0, positions := [] } []).2.map
        (fun a => action_group a.type)).Pairwise (· ≤ ·) :=
  step_actions_ordered (fun _ _ _ st _ _ => (st, []))
    (fun _ _ _ _ _ _ a ha => absurd ha (List.not_mem_nil a)) 0 0 100 none
    { primary := 1000, secondary := 0, positions := [] } []

/-! ## Fill-forward of missing quote data -/

/-- The fill-forward loop state entering step `i` (what `last_spot` and
`last_chain` hold when the loop reaches `i`): `(1.0, None)` before any
step, otherwise the pair yielded at step `i - 1`. -/
def fill_forward_before {C : Type} (data : ℕ → Option (ℚ × C)) :
    ℕ → ℚ × Option C
  | 0 => (1, none)
  | i + 1 => fill_forward_state data i

theorem fill_forward_step {C : Type} (data : ℕ → Option (ℚ × C)) (i : ℕ) :
    fill_forward_state data i
      = match data i with
        | some (s, c) => (s, some c)
        | none => fill_forward_before data i := by
  cases i with
  | zero =>
    cases h : data 0 with
    | none => simp [fill_forward_state, fill_forward_before, h]
    | some sc => simp [fill_forward_state, h]
  | succ m =>
    cases h : data (m + 1) with
    | none => simp [fill_forward_state, fill_forward_before, h]
    | some sc => simp [fill_forward_state, h]

theorem iterate_timeline_aux_getElem {C : Type}
    (data : ℕ → Option (ℚ × C)) :
    ∀ (n i k : ℕ), k < n →
      (iterate_timeline_aux data n i (fill_forward_before data i).1
          (fill_forward_before data i).2)[k]?
        = some (i + k, fill_forward_state data (i + k)) := by
  intro n
  induction n with
  | zero => intro i k hk; exact absurd hk (Nat.not_lt_zero k)
  | succ m ih =>
    intro i k hk
    have hstep : iterate_timeline_aux data (m + 1) i
        (fill_forward_before data i).1 (fill_forward_before data i).2
        = (i, fill_forward_state data i)
            :: iterate_timeline_aux data m (i + 1)
              (fill_forward_state data i).1
              (fill_forward_state data i).2 := by
      cases hd : data i with
      | some sc =>
        obtain ⟨s, c⟩ := sc
        have hffs : fill_forward_state data i = (s, some c) := by
          rw [fill_forward_step data i, hd]
        simp only [iterate_timeline_aux, hd, hffs]
      | none =>
        have hffs : fill_forward_state data i = fill_forward_before data i := by
          rw [fill_forward_step data i, hd]
        simp only [iterate_timeline_aux, hd, hffs]
    rw [hstep]
    match k with
    | 0 => simp
    | k + 1 =>
      have htail : fill_forward_state data i
          = fill_forward_before data (i + 1) := rfl
      rw [htail]
      have hrec := ih (i + 1) k (Nat.lt_of_succ_lt_succ hk)
      have harith : i + (k + 1) = i + 1 + k := by omega
      simp only [List.getElem?_cons_succ]
      rw [harith]
      exact hrec

theorem iterate_timeline_getElem {C : Type} (data : ℕ → Option (ℚ × C))
    (n i : ℕ) (h : i < n) :
    (iterate_timeline data n)[i]? = some (i, fill_forward_state data i) := by
  have := iterate_timeline_aux_getElem data n 0 i h
  simpa [iterate_timeline, fill_forward_before] using this

theorem fill_forward_state_of_some {C : Type} (data : ℕ → Option (ℚ × C))
    (j : ℕ) (s : ℚ) (c : C) (h : data j = some (s, c)) :
    fill_forward_state data j = (s, some c) := by
  cases j with
  | zero => simp [fill_forward_state, h]
  | succ m => simp [fill_forward_state, h]

theorem fill_forward_carry {C : Type} (data : ℕ → Option (ℚ × C))
    (i j : ℕ) (hji : j ≤ i)
    (hnone : ∀ k, j < k → k ≤ i → data k = none) :
    fill_forward_state data i = fill_forward_state data j := by
  induction i with
  | zero =>
    have h0 : j = 0 := Nat.le_zero.mp hji
    rw [h0]
  | succ m ih =>
    by_cases hj : j = m + 1
    · rw [hj]
    · have hjm : j ≤ m := by omega
      have hd : data (m + 1) = none := hnone (m + 1) (by omega) (le_refl _)
      have h1 : fill_forward_state data (m + 1)
          = fill_forward_state data m := by
        simp [fill_forward_state, hd]
      rw [h1]
      exact ih hjm (fun k hk1 hk2 => hnone k hk1 (by omega))

theorem fill_forward_default {C : Type} (data : ℕ → Option (ℚ × C)) (i : ℕ)
    (h : ∀ j, j ≤ i → data j = none) :
    fill_forward_state data i = (1, none) := by
  induction i with
  | zero => simp [fill_forward_state, h 0 (le_refl 0)]
  | succ m ih =>
    simp [fill_forward_state, h (m + 1) (le_refl _),
      ih (fun j hj => h j (by omega))]

theorem simulate_loop_spots {C : Type} (strategy : StrategyExec C)
    (start interval : ℤ) :
    ∀ (steps : List (ℕ × ℚ × Option C)) (st : SimulationStatus)
      (tl : List TimelineRow) (lg : List SimulationAction),
      (simulate_loop strategy start interval steps st tl lg).1.map
          TimelineRow.spot
        = tl.map TimelineRow.spot ++ steps.map (fun x => x.2.1) := by
  intro steps
  induction steps with
  | nil => intro st tl lg; simp [simulate_loop]
  | cons x rest ih =>
    intro st tl lg
    obtain ⟨i, spot, chain⟩ := x
    simp only [simulate_loop]
    rw [ih]
    simp [get_timeline_row]

/-- C9: a step whose timestamp has no quote data, preceded by a step with
data, yields the most recent earlier data-bearing step's spot and surface
unchanged, and the simulation's timeline row at that step records that
carried-forward spot. -/
theorem missing_data_fill_forward {C : Type} (strategy : StrategyExec C)
    (data : ℕ → Option (ℚ × C)) (num_steps : ℕ) (start interval : ℤ)
    (starting_capital : ℚ) (i j : ℕ) (s : ℚ) (c : C) (hji : j < i)
    (hi : i < num_steps) (hdi : data i = none) (hdj : data j = some (s, c))
    (hmid : ∀ k, j < k → k < i → data k = none) :
    (iterate_timeline data num_steps)[i]? = some (i, s, some c)
      ∧ ((simulate strategy data num_steps start interval
            starting_capital).1.map TimelineRow.spot)[i]? = some s := by
  have hff : fill_forward_state data i = (s, some c) := by
    rw [fill_forward_carry data i j hji.le (fun k h1 h2 => ?_),
      fill_forward_state_of_some data j s c hdj]
    rcases eq_or_lt_of_le h2 with h3 | h3
    · rw [h3]; exact hdi
    · exact hmid k h1 h3
  refine ⟨?_, ?_⟩
  · rw [iterate_timeline_getElem data num_steps i hi, hff]
  · rw [simulate, simulate_loop_spots]
    simp only [List.map_nil, List.nil_append]
    rw [List.getElem?_map, iterate_timeline_getElem data num_steps i hi, hff]
    rfl

/-- Witness for C9: quote data only at step 0 (spot 100); step 1 has none,
and both the iterated timeline and the simulated timeline carry the step-0
spot and surface forward. -/
theorem missing_data_fill_forward_witness :
    (iterate_timeline (fun n => if n = 0 then some ((100 : ℚ), ()) else none)
        2)[1]? = some (1, 100, some ())
      ∧ ((simulate (fun _ _ _ st (_ : Option Unit) _ => (st, []))
            (fun n => if n = 0 then some ((100 : ℚ), ()) else none) 2 0 1
            1000).1.map TimelineRow.spot)[1]? = some 100 :=
  missing_data_fill_forward (fun _ _ _ st _ _ => (st, []))
    (fun n => if n = 0 then some ((100 : ℚ), ()) else none) 2 0 1 1000 1 0
    100 () (by omega) (by omega) rfl rfl
    (fun k hk1 hk2 => absurd hk2 (by omega))

/-- C10: when the very first timestamps (up to and including step `i`) have
no quote data, the timeline iterator yields the constant spot `1.0` and no
surface (`None`) at step `i`, rather than failing. -/
theorem missing_initial_data_defaults {C : Type}
    (data : ℕ → Option (ℚ × C)) (num_steps i : ℕ) (hi : i < num_steps)
    (h : ∀ j, j ≤ i → data j = none) :
    (iterate_timeline data num_steps)[i]? = some (i, 1, (none : Option C)) := by
  rw [iterate_timeline_getElem data num_steps i hi,
    fill_forward_default data i h]

/-- Witness for C10: no quote data at all, one step; step 0 yields spot 1
and no surface. -/
theorem missing_initial_data_defaults_witness :
    (iterate_timeline (fun _ => (none : Option (ℚ × Unit))) 1)[0]?
      = some (0, 1, (none : Option Unit)) :=
  missing_initial_data_defaults (fun _ => none) 1 0 (by omega)
    (fun j hj => rfl)

end OptionSim
